import Mathlib

/-!
# Verification of the coco-label-tool persistence / caching core

Shallow embedding of the in-memory COCO dataset store
(`coco_label_tool/app/dataset_manager.py`, `coco_label_tool/app/dataset.py`),
the S3 cache-freshness and retry logic (`coco_label_tool/app/uri_utils.py`)
and the window cache (`app/cache.py`), together with proofs and refutations
of the specification's claims about them.

Python JSON documents are modelled by the inductive type `JValue`; Python
dicts are association lists with unique keys (the invariant maintained by
Python dicts), written `Obj`.  Dict assignment `d[k] = v` replaces the value
of an existing key in place and otherwise appends the new key at the end,
which is exactly `alSet`.  File contents are modelled by the parsed JSON
value they hold (Python's `json.dump`/`json.load` are inverse on such
values).  Operations that Python would abort with a `TypeError`/`KeyError`
on documents that are not shaped like a COCO dataset are totalised; the
relevant comparisons (`a["id"] != annotation_id` and friends) are modelled
by field tests that are equal to the Python ones whenever Python does not
raise.
-/

set_option maxHeartbeats 1000000

/-- A parsed JSON value (the result of Python `json.load`). -/
inductive JValue where
  | null : JValue
  | bool (b : Bool) : JValue
  | num (n : Int) : JValue
  | str (s : String) : JValue
  | arr (elems : List JValue) : JValue
  | obj (fields : List (String × JValue)) : JValue

/-- A Python dict with JSON values: an association list with unique keys. -/
abbrev Obj := List (String × JValue)

/-- Generic association-list lookup: Python `d.get(k)` / `d[k]`. -/
def alGet {κ β : Type} [DecidableEq κ] : List (κ × β) → κ → Option β
  | [], _ => none
  | (k', v) :: t, k => if k' = k then some v else alGet t k

/-- Generic association-list assignment: Python `d[k] = v` (replace the value
of an existing key in place, otherwise append the binding at the end). -/
def alSet {κ β : Type} [DecidableEq κ] : List (κ × β) → κ → β → List (κ × β)
  | [], k, v => [(k, v)]
  | (k', v') :: t, k, v => if k' = k then (k, v) :: t else (k', v') :: alSet t k v

/-- Generic association-list key removal: Python `del d[k]` (for the first,
hence in a dict the only, occurrence of the key). -/
def alRemove {κ β : Type} [DecidableEq κ] : List (κ × β) → κ → List (κ × β)
  | [], _ => []
  | (k', v') :: t, k => if k' = k then t else (k', v') :: alRemove t k

theorem alGet_alSet_self {κ β : Type} [DecidableEq κ] (l : List (κ × β)) (k : κ) (v : β) :
    alGet (alSet l k v) k = some v := by
  induction l with
  | nil => simp [alGet, alSet]
  | cons p t ih =>
    obtain ⟨k', v'⟩ := p
    by_cases h : k' = k
    · simp [alSet, h, alGet]
    · simp [alSet, h, alGet, ih]

theorem alGet_alSet_ne {κ β : Type} [DecidableEq κ] (l : List (κ × β)) (k k₂ : κ) (v : β)
    (h : k ≠ k₂) : alGet (alSet l k v) k₂ = alGet l k₂ := by
  induction l with
  | nil => simp [alGet, alSet, h]
  | cons p t ih =>
    obtain ⟨k', v'⟩ := p
    by_cases hk : k' = k
    · simp [alSet, hk, alGet, h]
    · by_cases hk2 : k' = k₂
      · simp [alSet, hk, alGet, hk2, Ne.symm h]
      · simp [alSet, hk, alGet, hk2, ih]

/-- Python `d.get(k, default)`. -/
def alGetD {κ β : Type} [DecidableEq κ] (l : List (κ × β)) (k : κ) (d : β) : β :=
  (alGet l k).getD d

/-- The list held by a JSON value, where Python would iterate it.  Python
raises a `TypeError` when the value is not a list; that never happens on a
COCO-shaped document, and the model totalises it to `[]`. -/
def asArr : JValue → List JValue
  | .arr l => l
  | _ => []

/-- The fields held by a JSON value, where Python would treat it as a dict;
totalised to `[]` where Python would raise. -/
def asObj : JValue → Obj
  | .obj f => f
  | _ => []

/-- `v["id"] == n` for an element `v` of a collection: true exactly when `v`
is a dict whose key `k` holds the integer `n` (Python's `==` between an
integer and any non-equal or non-numeric value is `False`). -/
def intFieldIs (v : JValue) (k : String) (n : Int) : Bool :=
  match v with
  | .obj f =>
    match alGet f k with
    | some (.num m) => m = n
    | _ => false
  | _ => false

/-- Python `ann.update(updates)`: apply every binding of `updates` to the
dict in order. -/
def dictUpdate (d u : Obj) : Obj :=
  u.foldl (fun acc p => alSet acc p.1 p.2) d

/-! ## ChangeTracker (`dataset_manager.py`, `class ChangeTracker`) -/

/-- Per-kind mutation counters since the last persisted save. -/
structure ChangeTracker where
  annotations_added : Nat
  annotations_updated : Nat
  annotations_deleted : Nat
  categories_added : Nat
  categories_updated : Nat
  categories_deleted : Nat
  images_deleted : Nat

/-- `ChangeTracker.reset`: all counters zero (also the initial state). -/
def ChangeTracker.reset : ChangeTracker := ⟨0, 0, 0, 0, 0, 0, 0⟩

/-- `ChangeTracker.has_changes`: `any([...])` over the seven counters
(a Python int is truthy iff nonzero). -/
def ChangeTracker.has_changes (c : ChangeTracker) : Bool :=
  c.annotations_added != 0 || c.annotations_updated != 0 || c.annotations_deleted != 0 ||
  c.categories_added != 0 || c.categories_updated != 0 || c.categories_deleted != 0 ||
  c.images_deleted != 0

/-! ## DatasetManager (`dataset_manager.py`, `class DatasetManager`)

The model covers a loaded manager: `_data` is the parsed document `data`,
`_local_path` is fixed, and `fileData` is the parsed content of the file at
that path.  The auto-save timer and the lock are not modelled: every claim
below concerns the sequential behaviour of single operations, each of which
is one critical section in the source, and a timer firing simply runs
`save`. -/

structure ManagerState where
  /-- `self._data`: the in-memory document. -/
  data : Obj
  /-- Parsed content of the file at `self._local_path`. -/
  fileData : Obj
  /-- `self._changes`. -/
  changes : ChangeTracker
  /-- `s3_state` dirty flag (`s3_state.mark_dirty()` on save when the
  dataset is S3-backed). -/
  s3Dirty : Bool
  /-- `DATASET_IS_S3` configuration flag. -/
  isS3 : Bool

namespace ManagerState

/-- `DatasetManager.load(path)`: parse the file into memory and reset the
tracker.  `doc` is the parsed content of the file, so it is both the new
in-memory document and the file content. -/
def load (isS3 : Bool) (s3Dirty : Bool) (doc : Obj) : ManagerState :=
  { data := doc, fileData := doc, changes := ChangeTracker.reset,
    s3Dirty := s3Dirty, isS3 := isS3 }

/-- `DatasetManager.save()`: no-op returning `False` without changes,
otherwise write the document to the stored path, reset the tracker, and
mark the S3 state dirty when S3-backed. -/
def save (s : ManagerState) : Bool × ManagerState :=
  if s.changes.has_changes then
    (true, { s with fileData := s.data, changes := ChangeTracker.reset,
                    s3Dirty := if s.isS3 then true else s.s3Dirty })
  else
    (false, s)

/-- `DatasetManager.flush()`: cancel the pending timer (not modelled), then
`save()`. -/
def flush (s : ManagerState) : Bool × ManagerState :=
  s.save

/-- `DatasetManager.get_images()` (the value of the returned copy). -/
def get_images (s : ManagerState) : List JValue :=
  asArr (alGetD s.data "images" (.arr []))

/-- `DatasetManager.get_annotations()`. -/
def get_annotations (s : ManagerState) : List JValue :=
  asArr (alGetD s.data "annotations" (.arr []))

/-- `DatasetManager.get_categories()`. -/
def get_categories (s : ManagerState) : List JValue :=
  asArr (alGetD s.data "categories" (.arr []))

/-- `DatasetManager.get_info()`. -/
def get_info (s : ManagerState) : Obj :=
  asObj (alGetD s.data "info" (.obj []))

/-- `DatasetManager.get_licenses()`. -/
def get_licenses (s : ManagerState) : List JValue :=
  asArr (alGetD s.data "licenses" (.arr []))

/-- `DatasetManager.get_image_by_id(image_id)` (value of the returned
`dict(img)` copy). -/
def get_image_by_id (s : ManagerState) (imageId : Int) : Option JValue :=
  (s.get_images).find? (fun img => intFieldIs img "id" imageId)

/-- Python `max(l, default=d)`: the default is used only on an empty list. -/
def pyMaxD (l : List Int) (d : Int) : Int :=
  match l with
  | [] => d
  | x :: xs => xs.foldl max x

/-- The integer ids of the elements of a collection
(`[a["id"] for a in annotations]`; on a COCO-shaped document every element
is a dict with an integer id, and the model skips elements on which Python
would raise). -/
def idsOf (l : List JValue) : List Int :=
  l.filterMap (fun a =>
    match a with
    | .obj f =>
      match alGet f "id" with
      | some (.num m) => some m
      | _ => none
    | _ => none)

/-- `DatasetManager.get_next_annotation_id()`:
`max([a["id"] for a in annotations], default=0) + 1`. -/
def get_next_annotation_id (s : ManagerState) : Int :=
  pyMaxD (idsOf s.get_annotations) 0 + 1

/-- `DatasetManager.get_next_category_id()`:
`max([c["id"] for c in categories], default=0) + 1`. -/
def get_next_category_id (s : ManagerState) : Int :=
  pyMaxD (idsOf s.get_categories) 0 + 1

/-- `DatasetManager.add_annotation(annotation)`:
`self.data.setdefault("annotations", []).append(annotation)` and bump the
`annotations_added` counter. -/
def addAnnotationOp (s : ManagerState) (a : JValue) : ManagerState :=
  { s with
    data := alSet s.data "annotations" (.arr (asArr (alGetD s.data "annotations" (.arr [])) ++ [a])),
    changes := { s.changes with annotations_added := s.changes.annotations_added + 1 } }

/-- Replace the first element whose `"id"` field is `annId` by its
`dict.update` with `updates`; `none` when no element matches
(the `for`/`return` loop of `update_annotation`). -/
def updFirst (annId : Int) (updates : Obj) : List JValue → Option (JValue × List JValue)
  | [] => none
  | a :: rest =>
    if intFieldIs a "id" annId then
      let a' : JValue := .obj (dictUpdate (asObj a) updates)
      some (a', a' :: rest)
    else
      match updFirst annId updates rest with
      | some (r, rest') => some (r, a :: rest')
      | none => none

/-- `DatasetManager.update_annotation(annotation_id, updates)`: patch the
first matching annotation in place, bump the counter and return it; `None`
and no change when absent. -/
def updateAnnotationOp (s : ManagerState) (annId : Int) (updates : Obj) :
    Option JValue × ManagerState :=
  match updFirst annId updates (asArr (alGetD s.data "annotations" (.arr []))) with
  | some (r, l') =>
    (some r,
     { s with data := alSet s.data "annotations" (.arr l'),
              changes := { s.changes with
                           annotations_updated := s.changes.annotations_updated + 1 } })
  | none => (none, s)

/-- `DatasetManager.delete_annotation(annotation_id)`: filter the collection
(the filtered list is assigned back in both branches), and report a deletion
exactly when the length decreased. -/
def deleteAnnotationOp (s : ManagerState) (annId : Int) : Bool × ManagerState :=
  let l := asArr (alGetD s.data "annotations" (.arr []))
  let l' := l.filter (fun a => !intFieldIs a "id" annId)
  let data' := alSet s.data "annotations" (.arr l')
  if l'.length < l.length then
    (true, { s with data := data',
                    changes := { s.changes with
                                 annotations_deleted := s.changes.annotations_deleted + 1 } })
  else
    (false, { s with data := data' })

/-- `DatasetManager.add_category(category)`. -/
def addCategoryOp (s : ManagerState) (c : JValue) : ManagerState :=
  { s with
    data := alSet s.data "categories" (.arr (asArr (alGetD s.data "categories" (.arr [])) ++ [c])),
    changes := { s.changes with categories_added := s.changes.categories_added + 1 } }

/-- `DatasetManager.update_category(category_id, updates)`. -/
def updateCategoryOp (s : ManagerState) (catId : Int) (updates : Obj) :
    Option JValue × ManagerState :=
  match updFirst catId updates (asArr (alGetD s.data "categories" (.arr []))) with
  | some (r, l') =>
    (some r,
     { s with data := alSet s.data "categories" (.arr l'),
              changes := { s.changes with
                           categories_updated := s.changes.categories_updated + 1 } })
  | none => (none, s)

/-- `DatasetManager.delete_category(category_id)` (the low-level mutator). -/
def deleteCategoryOp (s : ManagerState) (catId : Int) : Bool × ManagerState :=
  let l := asArr (alGetD s.data "categories" (.arr []))
  let l' := l.filter (fun c => !intFieldIs c "id" catId)
  let data' := alSet s.data "categories" (.arr l')
  if l'.length < l.length then
    (true, { s with data := data',
                    changes := { s.changes with
                                 categories_deleted := s.changes.categories_deleted + 1 } })
  else
    (false, { s with data := data' })

/-- `DatasetManager.delete_image(image_id)`: filter the images (assigned
back in both branches); when an image was removed, also filter the
annotations by `image_id` and bump the counter. -/
def deleteImageOp (s : ManagerState) (imageId : Int) : Bool × ManagerState :=
  let imgs := asArr (alGetD s.data "images" (.arr []))
  let imgs' := imgs.filter (fun img => !intFieldIs img "id" imageId)
  let data1 := alSet s.data "images" (.arr imgs')
  if imgs'.length < imgs.length then
    let anns := asArr (alGetD data1 "annotations" (.arr []))
    let anns' := anns.filter (fun a => !intFieldIs a "image_id" imageId)
    (true, { s with data := alSet data1 "annotations" (.arr anns'),
                    changes := { s.changes with
                                 images_deleted := s.changes.images_deleted + 1 } })
  else
    (false, { s with data := data1 })

end ManagerState

/-! ## Collection view and the P1 round-trip invariant -/

/-- List-filtering facts used by the manager's delete operations, whose
"found" test is the length comparison in the source. -/
theorem filter_eq_of_length_eq {α : Type} (p : α → Bool) (l : List α)
    (h : (l.filter p).length = l.length) : l.filter p = l := by
  simp at h
  exact List.filter_eq_self.mpr h

theorem filter_not_length_lt {α : Type} (p : α → Bool) (l : List α) (h : l.any p = true) :
    (l.filter (fun a => !p a)).length < l.length := by
  induction l with
  | nil => simp at h
  | cons a t ih =>
    cases hp : p a with
    | true =>
      simp [List.filter_cons, hp]
      have := List.length_filter_le (fun a => !p a) t
      omega
    | false =>
      have h' : t.any p = true := by
        rw [List.any_cons, hp] at h
        simpa using h
      simp [List.filter_cons, hp]
      exact ih h'

theorem filter_not_eq_self {α : Type} (p : α → Bool) (l : List α) (h : l.any p = false) :
    l.filter (fun a => !p a) = l := by
  induction l with
  | nil => rfl
  | cons a t ih =>
    have h' : p a = false ∧ t.any p = false := by
      rw [List.any_cons] at h
      simpa using h
    simp [List.filter_cons, h'.1, ih h'.2]

theorem alGetD_alSet_self {κ β : Type} [DecidableEq κ] (l : List (κ × β)) (k : κ) (v d : β) :
    alGetD (alSet l k v) k d = v := by
  simp [alGetD, alGet_alSet_self]

theorem alGetD_alSet_ne {κ β : Type} [DecidableEq κ] (l : List (κ × β)) (k k₂ : κ) (v d : β)
    (h : ¬k = k₂) : alGetD (alSet l k v) k₂ d = alGetD l k₂ d := by
  simp [alGetD, alGet_alSet_ne _ _ _ _ h]

/-- The five entity collections of a document, each read the way the
manager's `get_*` accessors read them. -/
structure CocoView where
  info : Obj
  licenses : List JValue
  categories : List JValue
  images : List JValue
  annotations : List JValue

/-- Read the five collections out of a parsed document. -/
def viewOf (o : Obj) : CocoView :=
  { info := asObj (alGetD o "info" (.obj [])),
    licenses := asArr (alGetD o "licenses" (.arr [])),
    categories := asArr (alGetD o "categories" (.arr [])),
    images := asArr (alGetD o "images" (.arr [])),
    annotations := asArr (alGetD o "annotations" (.arr [])) }

theorem viewOf_set_annotations (o : Obj) (l : List JValue) :
    viewOf (alSet o "annotations" (.arr l)) = { viewOf o with annotations := l } := by
  simp [viewOf, alGetD_alSet_self, alGetD_alSet_ne, asArr]

theorem viewOf_set_images (o : Obj) (l : List JValue) :
    viewOf (alSet o "images" (.arr l)) = { viewOf o with images := l } := by
  simp [viewOf, alGetD_alSet_self, alGetD_alSet_ne, asArr]

theorem viewOf_set_categories (o : Obj) (l : List JValue) :
    viewOf (alSet o "categories" (.arr l)) = { viewOf o with categories := l } := by
  simp [viewOf, alGetD_alSet_self, alGetD_alSet_ne, asArr]

/-- One tracked mutation of the `DatasetManager` (`set_images` /
`set_annotations` are bulk overwrites, documented as untracked, and are not
tracked mutations). -/
inductive Op where
  | addAnn (a : JValue)
  | updAnn (annId : Int) (updates : Obj)
  | delAnn (annId : Int)
  | addCat (c : JValue)
  | updCat (catId : Int) (updates : Obj)
  | delCat (catId : Int)
  | delImg (imageId : Int)

/-- Run one tracked mutation (discarding its return value). -/
def applyOp (s : ManagerState) (op : Op) : ManagerState :=
  match op with
  | .addAnn a => s.addAnnotationOp a
  | .updAnn i u => (s.updateAnnotationOp i u).2
  | .delAnn i => (s.deleteAnnotationOp i).2
  | .addCat c => s.addCategoryOp c
  | .updCat i u => (s.updateCategoryOp i u).2
  | .delCat i => (s.deleteCategoryOp i).2
  | .delImg i => (s.deleteImageOp i).2

/-- Run a sequence of tracked mutations. -/
def applyOps (s : ManagerState) (ops : List Op) : ManagerState :=
  ops.foldl applyOp s

/-- The persistence invariant: whenever the tracker reports no changes, the
file on disk holds the same five collections as the in-memory document. -/
def SyncInv (s : ManagerState) : Prop :=
  s.changes.has_changes = false → viewOf s.fileData = viewOf s.data

theorem syncInv_applyOp (s : ManagerState) (op : Op) (h : SyncInv s) :
    SyncInv (applyOp s op) := by
  cases op with
  | addAnn a =>
    intro hc
    simp [applyOp, ManagerState.addAnnotationOp, ChangeTracker.has_changes] at hc
  | updAnn i u =>
    intro hc
    simp only [applyOp, ManagerState.updateAnnotationOp] at hc ⊢
    cases hm : ManagerState.updFirst i u (asArr (alGetD s.data "annotations" (JValue.arr []))) with
    | some p =>
      obtain ⟨r, l2⟩ := p
      rw [hm] at hc
      simp [ChangeTracker.has_changes] at hc
    | none =>
      rw [hm] at hc
      exact h hc
  | delAnn i =>
    intro hc
    simp only [applyOp, ManagerState.deleteAnnotationOp] at hc ⊢
    by_cases hl : (List.filter (fun a => !intFieldIs a "id" i)
        (asArr (alGetD s.data "annotations" (JValue.arr [])))).length
        < (asArr (alGetD s.data "annotations" (JValue.arr []))).length
    · rw [if_pos hl] at hc
      simp [ChangeTracker.has_changes] at hc
    · rw [if_neg hl] at hc ⊢
      have heq := filter_eq_of_length_eq (fun a => !intFieldIs a "id" i)
        (asArr (alGetD s.data "annotations" (JValue.arr [])))
        (Nat.le_antisymm (List.length_filter_le _ _) (Nat.le_of_not_lt hl))
      simp only [heq, viewOf_set_annotations]
      exact h hc
  | addCat c =>
    intro hc
    simp [applyOp, ManagerState.addCategoryOp, ChangeTracker.has_changes] at hc
  | updCat i u =>
    intro hc
    simp only [applyOp, ManagerState.updateCategoryOp] at hc ⊢
    cases hm : ManagerState.updFirst i u (asArr (alGetD s.data "categories" (JValue.arr []))) with
    | some p =>
      obtain ⟨r, l2⟩ := p
      rw [hm] at hc
      simp [ChangeTracker.has_changes] at hc
    | none =>
      rw [hm] at hc
      exact h hc
  | delCat i =>
    intro hc
    simp only [applyOp, ManagerState.deleteCategoryOp] at hc ⊢
    by_cases hl : (List.filter (fun c => !intFieldIs c "id" i)
        (asArr (alGetD s.data "categories" (JValue.arr [])))).length
        < (asArr (alGetD s.data "categories" (JValue.arr []))).length
    · rw [if_pos hl] at hc
      simp [ChangeTracker.has_changes] at hc
    · rw [if_neg hl] at hc ⊢
      have heq := filter_eq_of_length_eq (fun c => !intFieldIs c "id" i)
        (asArr (alGetD s.data "categories" (JValue.arr [])))
        (Nat.le_antisymm (List.length_filter_le _ _) (Nat.le_of_not_lt hl))
      simp only [heq, viewOf_set_categories]
      exact h hc
  | delImg i =>
    intro hc
    simp only [applyOp, ManagerState.deleteImageOp] at hc ⊢
    by_cases hl : (List.filter (fun img => !intFieldIs img "id" i)
        (asArr (alGetD s.data "images" (JValue.arr [])))).length
        < (asArr (alGetD s.data "images" (JValue.arr []))).length
    · rw [if_pos hl] at hc
      simp [ChangeTracker.has_changes] at hc
    · rw [if_neg hl] at hc ⊢
      have heq := filter_eq_of_length_eq (fun img => !intFieldIs img "id" i)
        (asArr (alGetD s.data "images" (JValue.arr [])))
        (Nat.le_antisymm (List.length_filter_le _ _) (Nat.le_of_not_lt hl))
      simp only [heq, viewOf_set_images]
      exact h hc

theorem syncInv_applyOps (ops : List Op) (s : ManagerState) (h : SyncInv s) :
    SyncInv (applyOps s ops) := by
  induction ops generalizing s with
  | nil => exact h
  | cons op rest ih => exact ih _ (syncInv_applyOp _ _ h)

/-- C1: for every loaded `DatasetManager`, any sequence of tracked mutations
followed by `flush()` leaves the stored local file holding info, licenses,
categories, images and annotations collections equal to the in-memory
collections at flush time. -/
theorem dm_mutations_flush_round_trip (isS3 s3d : Bool) (doc : Obj) (ops : List Op) :
    viewOf ((applyOps (ManagerState.load isS3 s3d doc) ops).flush.2.fileData) =
      viewOf ((applyOps (ManagerState.load isS3 s3d doc) ops).flush.2.data) := by
  have h : SyncInv (applyOps (ManagerState.load isS3 s3d doc) ops) :=
    syncInv_applyOps ops _ (fun _ => rfl)
  set s := applyOps (ManagerState.load isS3 s3d doc) ops with hs
  unfold ManagerState.flush ManagerState.save
  by_cases hc : s.changes.has_changes = true
  · simp [hc]
  · have hc' : s.changes.has_changes = false := by
      cases hcc : s.changes.has_changes
      · rfl
      · exact absurd hcc hc
    simp [hc']
    exact h hc'

/-! ## C5: idempotent save -/

/-- C5: `save()` returns `False` and performs no write when the tracker
reports no changes; a `save()` that wrote resets the tracker, so an
immediately following `save()` returns `False` and the tracker reports no
changes. -/
theorem save_no_changes (s : ManagerState) (h : s.changes.has_changes = false) :
    s.save = (false, s) := by
  simp [ManagerState.save, h]

theorem dm_save_idempotent (s : ManagerState) :
    (s.changes.has_changes = false → s.save = (false, s)) ∧
    (s.save.1 = true →
      s.save.2.save = (false, s.save.2) ∧ s.save.2.changes.has_changes = false) := by
  constructor
  · exact fun h => save_no_changes s h
  · intro h
    by_cases hc : s.changes.has_changes = true
    · have h2 : s.save.2.changes = ChangeTracker.reset := by
        simp only [ManagerState.save]
        rw [if_pos hc]
      have h3 : s.save.2.changes.has_changes = false := by
        rw [h2]
        rfl
      exact ⟨save_no_changes _ h3, h3⟩
    · have hf : s.changes.has_changes = false := by
        cases hcc : s.changes.has_changes
        · rfl
        · exact absurd hcc hc
      simp [ManagerState.save, hf] at h

/-- A dirty manager state: one annotation added after load. -/
def exSaveState : ManagerState :=
  (ManagerState.load false false [("annotations", .arr [])]).addAnnotationOp
    (.obj [("id", .num 1), ("image_id", .num 1), ("category_id", .num 1)])

theorem dm_save_idempotent_example :
    exSaveState.save.1 = true ∧
    exSaveState.save.2.save = (false, exSaveState.save.2) ∧
    exSaveState.save.2.changes.has_changes = false := by
  have h := (dm_save_idempotent exSaveState).2 rfl
  exact ⟨rfl, h.1, h.2⟩

/-! ## C3: id assignment -/

theorem foldl_max_le (xs : List Int) (x : Int) : x ≤ xs.foldl max x := by
  induction xs generalizing x with
  | nil => exact le_refl x
  | cons y t ih => exact le_trans (le_max_left x y) (ih (max x y))

theorem foldl_max_mem_le (xs : List Int) (x : Int) : ∀ y ∈ xs, y ≤ xs.foldl max x := by
  induction xs generalizing x with
  | nil => intro y hy; simp at hy
  | cons z t ih =>
    intro y hy
    rcases List.mem_cons.mp hy with h | h
    · subst h
      exact le_trans (le_max_right x y) (foldl_max_le t (max x y))
    · exact ih (max x z) y h

theorem foldl_max_choice (xs : List Int) (x : Int) :
    xs.foldl max x = x ∨ xs.foldl max x ∈ xs := by
  induction xs generalizing x with
  | nil => exact Or.inl rfl
  | cons y t ih =>
    rcases ih (max x y) with h | h
    · rcases max_choice x y with hm | hm
      · exact Or.inl (by rw [List.foldl_cons, h, hm])
      · exact Or.inr (by rw [List.foldl_cons, h, hm]; exact List.mem_cons_self y t)
    · exact Or.inr (List.mem_cons_of_mem y h)

/-- Characterisation of Python `max(l, default=0)`. -/
theorem pyMaxD_spec (l : List Int) :
    (l = [] → ManagerState.pyMaxD l 0 = 0) ∧
    (l ≠ [] → ManagerState.pyMaxD l 0 ∈ l ∧ ∀ x ∈ l, x ≤ ManagerState.pyMaxD l 0) := by
  constructor
  · intro h
    subst h
    rfl
  · intro h
    match l with
    | [] => exact absurd rfl h
    | x :: xs =>
      constructor
      · rcases foldl_max_choice xs x with hm | hm
        · show xs.foldl max x ∈ x :: xs
          rw [hm]
          exact List.mem_cons_self x xs
        · show xs.foldl max x ∈ x :: xs
          exact List.mem_cons_of_mem x hm
      · intro y hy
        rcases List.mem_cons.mp hy with hh | hh
        · subst hh
          exact foldl_max_le xs y
        · exact foldl_max_mem_le xs x y hh

/-- C3: next annotation/category ids are max(existing ids) + 1, defaulting
to 1 when the collection is empty or absent. -/
theorem dm_next_id_assignment (s : ManagerState) :
    (ManagerState.idsOf s.get_annotations = [] → s.get_next_annotation_id = 1) ∧
    (ManagerState.idsOf s.get_annotations ≠ [] →
      (s.get_next_annotation_id - 1) ∈ ManagerState.idsOf s.get_annotations ∧
      ∀ x ∈ ManagerState.idsOf s.get_annotations, x ≤ s.get_next_annotation_id - 1) ∧
    (ManagerState.idsOf s.get_categories = [] → s.get_next_category_id = 1) ∧
    (ManagerState.idsOf s.get_categories ≠ [] →
      (s.get_next_category_id - 1) ∈ ManagerState.idsOf s.get_categories ∧
      ∀ x ∈ ManagerState.idsOf s.get_categories, x ≤ s.get_next_category_id - 1) := by
  refine ⟨?_, ?_, ?_, ?_⟩
  · intro h
    unfold ManagerState.get_next_annotation_id
    rw [(pyMaxD_spec _).1 h]
    norm_num
  · intro h
    have hs := (pyMaxD_spec (ManagerState.idsOf s.get_annotations)).2 h
    unfold ManagerState.get_next_annotation_id
    constructor
    · simpa using hs.1
    · intro x hx
      have := hs.2 x hx
      omega
  · intro h
    unfold ManagerState.get_next_category_id
    rw [(pyMaxD_spec _).1 h]
    norm_num
  · intro h
    have hs := (pyMaxD_spec (ManagerState.idsOf s.get_categories)).2 h
    unfold ManagerState.get_next_category_id
    constructor
    · simpa using hs.1
    · intro x hx
      have := hs.2 x hx
      omega

/-- A dataset with annotation ids 3, 7, 2 and (non-contiguous) category
ids 1, 3, the spec's P2 / add-category scenario. -/
def exNextIdState : ManagerState :=
  ManagerState.load false false
    [("annotations", .arr [.obj [("id", .num 3)], .obj [("id", .num 7)], .obj [("id", .num 2)]]),
     ("categories", .arr [.obj [("id", .num 1)], .obj [("id", .num 3)]])]

theorem dm_next_id_assignment_example :
    exNextIdState.get_next_annotation_id = 8 ∧
    (exNextIdState.get_next_annotation_id - 1) ∈ ManagerState.idsOf exNextIdState.get_annotations ∧
    exNextIdState.get_next_category_id = 4 ∧
    (exNextIdState.get_next_category_id - 1) ∈ ManagerState.idsOf exNextIdState.get_categories := by
  have h1 := ((dm_next_id_assignment exNextIdState).2.1 (by decide)).1
  have h2 := ((dm_next_id_assignment exNextIdState).2.2.2 (by decide)).1
  exact ⟨rfl, h1, rfl, h2⟩

/-! ## C2: cascading image deletion -/

/-- C2: for a present image id, `delete_image` returns `True`, removes
exactly the image(s) with that id and exactly the annotations whose
`image_id` equals it, and leaves categories, info and licenses unchanged;
for an absent id it returns `False` and changes no collection and no
counter. -/
theorem dm_delete_image_cascade (s : ManagerState) (imageId : Int) :
    (s.get_images.any (fun img => intFieldIs img "id" imageId) = true →
      (s.deleteImageOp imageId).1 = true ∧
      (s.deleteImageOp imageId).2.get_images
        = s.get_images.filter (fun img => !intFieldIs img "id" imageId) ∧
      (s.deleteImageOp imageId).2.get_annotations
        = s.get_annotations.filter (fun a => !intFieldIs a "image_id" imageId) ∧
      (s.deleteImageOp imageId).2.get_categories = s.get_categories ∧
      (s.deleteImageOp imageId).2.get_info = s.get_info ∧
      (s.deleteImageOp imageId).2.get_licenses = s.get_licenses) ∧
    (s.get_images.any (fun img => intFieldIs img "id" imageId) = false →
      (s.deleteImageOp imageId).1 = false ∧
      (s.deleteImageOp imageId).2.get_images = s.get_images ∧
      (s.deleteImageOp imageId).2.get_annotations = s.get_annotations ∧
      (s.deleteImageOp imageId).2.get_categories = s.get_categories ∧
      (s.deleteImageOp imageId).2.get_info = s.get_info ∧
      (s.deleteImageOp imageId).2.get_licenses = s.get_licenses ∧
      (s.deleteImageOp imageId).2.changes = s.changes) := by
  constructor
  · intro h
    have hlt : (List.filter (fun img => !intFieldIs img "id" imageId)
        (asArr (alGetD s.data "images" (JValue.arr [])))).length
        < (asArr (alGetD s.data "images" (JValue.arr []))).length :=
      filter_not_length_lt _ _ h
    simp only [ManagerState.deleteImageOp]
    rw [if_pos hlt]
    refine ⟨rfl, ?_, ?_, ?_, ?_, ?_⟩ <;>
      simp [ManagerState.get_images, ManagerState.get_annotations,
        ManagerState.get_categories, ManagerState.get_info, ManagerState.get_licenses,
        alGetD_alSet_self, alGetD_alSet_ne, asArr]
  · intro h
    have heq : List.filter (fun img => !intFieldIs img "id" imageId)
        (asArr (alGetD s.data "images" (JValue.arr [])))
        = asArr (alGetD s.data "images" (JValue.arr [])) :=
      filter_not_eq_self _ _ h
    have hnlt : ¬ (List.filter (fun img => !intFieldIs img "id" imageId)
        (asArr (alGetD s.data "images" (JValue.arr [])))).length
        < (asArr (alGetD s.data "images" (JValue.arr []))).length := by
      rw [heq]
      exact lt_irrefl _
    simp only [ManagerState.deleteImageOp]
    rw [if_neg hnlt]
    refine ⟨rfl, ?_, ?_, ?_, ?_, ?_, rfl⟩
    · simp only [ManagerState.get_images]
      rw [alGetD_alSet_self]
      simp only [asArr]
      exact heq
    all_goals
      simp [ManagerState.get_annotations, ManagerState.get_categories,
        ManagerState.get_info, ManagerState.get_licenses,
        alGetD_alSet_self, alGetD_alSet_ne, asArr]

/-- The spec's cascade scenario: images with ids 1, 2, 3 and annotations
(1 ↦ image 1), (2 ↦ image 1), (3 ↦ image 3). -/
def exCascadeState : ManagerState :=
  ManagerState.load false false
    [("images", .arr [.obj [("id", .num 1)], .obj [("id", .num 2)], .obj [("id", .num 3)]]),
     ("annotations", .arr
       [.obj [("id", .num 1), ("image_id", .num 1)],
        .obj [("id", .num 2), ("image_id", .num 1)],
        .obj [("id", .num 3), ("image_id", .num 3)]])]

theorem dm_delete_image_cascade_example :
    (exCascadeState.deleteImageOp 1).1 = true ∧
    (exCascadeState.deleteImageOp 1).2.get_images
      = [.obj [("id", .num 2)], .obj [("id", .num 3)]] ∧
    (exCascadeState.deleteImageOp 1).2.get_annotations
      = [.obj [("id", .num 3), ("image_id", .num 3)]] := by
  have h := (dm_delete_image_cascade exCascadeState 1).1 rfl
  exact ⟨h.1, h.2.1.trans rfl, h.2.2.1.trans rfl⟩

/-! ## C4: category deletion guard (`dataset.py`, `delete_category`) -/

/-- The error kinds of `exceptions.py` relevant to the public dataset
operations. -/
inductive DsError where
  | categoryInUse
  | annotationNotFound
  | imageNotFound

/-- `dataset.delete_category(category_id)`: raise `CategoryInUseError` when
any annotation references the category, otherwise delegate to the manager's
`delete_category`. -/
def ds_delete_category (s : ManagerState) (catId : Int) : Except DsError ManagerState :=
  if s.get_annotations.any (fun a => intFieldIs a "category_id" catId) then
    .error .categoryInUse
  else
    .ok (s.deleteCategoryOp catId).2

/-- The document of the state after the manager's `delete_category`:
the categories collection is filtered in both branches. -/
theorem deleteCategoryOp_data (s : ManagerState) (catId : Int) :
    (s.deleteCategoryOp catId).2.data
      = alSet s.data "categories"
          (.arr ((asArr (alGetD s.data "categories" (.arr []))).filter
            (fun c => !intFieldIs c "id" catId))) := by
  simp only [ManagerState.deleteCategoryOp]
  split
  · rfl
  · rfl

/-- C4: the public `delete_category` fails with `CategoryInUseError` iff
some annotation's `category_id` equals the given id; otherwise it removes
the category with that id and leaves everything else unchanged. -/
theorem ds_delete_category_guard (s : ManagerState) (catId : Int) :
    (ds_delete_category s catId = .error .categoryInUse ↔
      s.get_annotations.any (fun a => intFieldIs a "category_id" catId) = true) ∧
    (s.get_annotations.any (fun a => intFieldIs a "category_id" catId) = false →
      ds_delete_category s catId = .ok (s.deleteCategoryOp catId).2 ∧
      (s.deleteCategoryOp catId).2.get_categories
        = s.get_categories.filter (fun c => !intFieldIs c "id" catId) ∧
      (s.deleteCategoryOp catId).2.get_annotations = s.get_annotations ∧
      (s.deleteCategoryOp catId).2.get_images = s.get_images ∧
      (s.deleteCategoryOp catId).2.get_info = s.get_info ∧
      (s.deleteCategoryOp catId).2.get_licenses = s.get_licenses) := by
  constructor
  · by_cases hcond : s.get_annotations.any (fun a => intFieldIs a "category_id" catId) = true
    · simp [ds_delete_category, hcond]
    · have hf : s.get_annotations.any (fun a => intFieldIs a "category_id" catId) = false := by
        cases hcc : s.get_annotations.any (fun a => intFieldIs a "category_id" catId)
        · rfl
        · exact absurd hcc hcond
      simp [ds_delete_category, hf]
  · intro hf
    refine ⟨by simp [ds_delete_category, hf], ?_, ?_, ?_, ?_, ?_⟩ <;>
      simp [ManagerState.get_categories, ManagerState.get_annotations,
        ManagerState.get_images, ManagerState.get_info, ManagerState.get_licenses,
        deleteCategoryOp_data, alGetD_alSet_self, alGetD_alSet_ne, asArr]

/-- Categories 1 and 2; a single annotation referencing category 1. -/
def exGuardState : ManagerState :=
  ManagerState.load false false
    [("categories", .arr [.obj [("id", .num 1)], .obj [("id", .num 2)]]),
     ("annotations", .arr [.obj [("id", .num 1), ("category_id", .num 1)]])]

theorem ds_delete_category_guard_example :
    ds_delete_category exGuardState 1 = .error .categoryInUse ∧
    ds_delete_category exGuardState 2 = .ok (exGuardState.deleteCategoryOp 2).2 ∧
    (exGuardState.deleteCategoryOp 2).2.get_categories = [.obj [("id", .num 1)]] := by
  have h := (ds_delete_category_guard exGuardState 2).2 rfl
  exact ⟨(ds_delete_category_guard exGuardState 1).1.mpr rfl, h.1, h.2.1.trans rfl⟩

/-! ## uri_utils: URI parsing, cache freshness, retry (`uri_utils.py`) -/

/-- Python `str.replace(pat, "")` over explicit characters: remove every
non-overlapping occurrence of `pat`, scanning left to right.  Fuel-based so
that it is structural; one unit of fuel is spent per consumed character, so
fuel = length of the input always suffices. -/
def pyRemoveFuel (pat : List Char) : Nat → List Char → List Char
  | _, [] => []
  | 0, s => s
  | fuel+1, c :: rest =>
    if pat.isPrefixOf (c :: rest) && !pat.isEmpty then
      pyRemoveFuel pat fuel ((c :: rest).drop pat.length)
    else
      c :: pyRemoveFuel pat fuel rest

/-- Python `s.replace(pat, "")`. -/
def pyRemove (s pat : String) : String :=
  ⟨pyRemoveFuel pat.data s.data.length s.data⟩

/-- Python `s.split("/", 1)` combined with the `"/" in s` test: `none` when
there is no slash, otherwise the parts before and after the first slash. -/
def splitFirstSlash : List Char → Option (List Char × List Char)
  | [] => none
  | c :: t =>
    if c = '/' then some ([], t)
    else
      match splitFirstSlash t with
      | some (b, k) => some (c :: b, k)
      | none => none

/-- `parse_s3_uri(uri)`: strip the four scheme spellings, require a slash,
a non-empty bucket and a non-empty key; `ValueError` is `.error`. -/
def parse_s3_uri (uri : String) : Except String (String × String) :=
  if uri.isEmpty then .error "Empty URI"
  else
    let s3_path := pyRemove (pyRemove (pyRemove (pyRemove uri "s3://") "s3a://") "S3://") "S3A://"
    match splitFirstSlash s3_path.data with
    | none => .error "Invalid S3 URI (no key)"
    | some (b, k) =>
      if b.isEmpty then .error "Invalid S3 URI (empty bucket)"
      else if k.isEmpty then .error "Invalid S3 URI (empty key)"
      else .ok (⟨b⟩, ⟨k⟩)

/-- Python `s.strip(chr)` for the quote character: drop the leading and
trailing runs of double quotes. -/
def pyStripQuotes (s : String) : String :=
  ⟨((s.data.dropWhile (fun c => c = '"')).reverse.dropWhile (fun c => c = '"')).reverse⟩

/-- Python truthiness of a JSON value (`if not metadata`). -/
def pyTruthy : JValue → Bool
  | .null => false
  | .bool b => b
  | .num n => n != 0
  | .str s => !s.isEmpty
  | .arr l => !l.isEmpty
  | .obj f => !f.isEmpty

/-- The version tag stored in a sidecar value: present exactly when the
value is a dict whose `"etag"` key holds a string. -/
def storedEtag (md : JValue) : Option String :=
  match md with
  | .obj f =>
    match alGet f "etag" with
    | some (.str t) => some t
    | _ => none
  | _ => none

/-- `current_etag != metadata.get("etag")`, negated: true exactly when the
sidecar dict's `"etag"` is the string `current`.  A non-dict sidecar value
raises inside the `try` of `is_cache_valid` (resolving to `False`), and a
non-string stored value is `!=` every string. -/
def etagMatches (md : JValue) (current : String) : Bool :=
  match md with
  | .obj f =>
    match alGet f "etag" with
    | some (.str t) => t == current
    | _ => false
  | _ => false

/-- The file-system and network circumstances of one `is_cache_valid` call:
whether the cached JSON exists, whether the sidecar file exists, what it
parses to (`none` = `JSONDecodeError`/`IOError`), and the outcome of each
successive `head_object` attempt (`.ok` carries the raw `ETag` string). -/
structure CacheEnv where
  cachedFileExists : Bool
  sidecarExists : Bool
  sidecarContent : Option JValue
  headAttempt : Nat → Except String String

/-- `load_cache_metadata(uri)`: `None` when the sidecar file is missing or
unparsable. -/
def load_cache_metadata (env : CacheEnv) : Option JValue :=
  if env.sidecarExists then env.sidecarContent else none

/-- `is_cache_valid(uri)`: cached file present, sidecar present, parsed and
truthy, URI parses, a single direct HEAD attempt succeeds, and the stripped
current ETag equals the stored one; any failure yields `False`. -/
def is_cache_valid (uri : String) (env : CacheEnv) : Bool :=
  if !env.cachedFileExists then false
  else
    match load_cache_metadata env with
    | none => false
    | some md =>
      if !pyTruthy md then false
      else
        match parse_s3_uri uri with
        | .error _ => false
        | .ok _ =>
          match env.headAttempt 0 with
          | .error _ => false
          | .ok raw => etagMatches md (pyStripQuotes raw)

theorem pyTruthy_of_storedEtag (md : JValue) (t : String) (h : storedEtag md = some t) :
    pyTruthy md = true := by
  cases md with
  | obj f =>
    cases f with
    | nil => simp [storedEtag, alGet] at h
    | cons p t2 => simp [pyTruthy]
  | null => simp [storedEtag] at h
  | bool b => simp [storedEtag] at h
  | num n => simp [storedEtag] at h
  | str s => simp [storedEtag] at h
  | arr l => simp [storedEtag] at h

theorem etagMatches_iff (md : JValue) (s : String) :
    etagMatches md s = true ↔ storedEtag md = some s := by
  cases md with
  | obj f =>
    cases hg : alGet f "etag" with
    | none => simp [etagMatches, storedEtag, hg]
    | some v => cases v <;> simp [etagMatches, storedEtag, hg]
  | null => simp [etagMatches, storedEtag]
  | bool b => simp [etagMatches, storedEtag]
  | num n => simp [etagMatches, storedEtag]
  | str s2 => simp [etagMatches, storedEtag]
  | arr l => simp [etagMatches, storedEtag]

/-- C6: `is_cache_valid` is true iff the cached file exists, the sidecar
exists and parses, the remote HEAD check succeeds (the URI parses and the
single HEAD attempt returns), and the stored version tag equals the
remote's current (quote-stripped) ETag. -/
theorem uri_is_cache_valid_iff (uri : String) (env : CacheEnv) :
    is_cache_valid uri env = true ↔
      (env.cachedFileExists = true ∧ env.sidecarExists = true ∧
       ∃ md, env.sidecarContent = some md ∧
         (∃ bk, parse_s3_uri uri = .ok bk) ∧
         (∃ raw, env.headAttempt 0 = .ok raw ∧
           storedEtag md = some (pyStripQuotes raw))) := by
  cases hcf : env.cachedFileExists
  · simp [is_cache_valid, hcf]
  · cases hse : env.sidecarExists
    · simp [is_cache_valid, load_cache_metadata, hcf, hse]
    · cases hsc : env.sidecarContent with
      | none => simp [is_cache_valid, load_cache_metadata, hcf, hse, hsc]
      | some md =>
        cases htr : pyTruthy md
        · have hns : ∀ t, ¬ storedEtag md = some t := by
            intro t ht
            have h2 := pyTruthy_of_storedEtag md t ht
            rw [htr] at h2
            exact Bool.noConfusion h2
          simp [is_cache_valid, load_cache_metadata, hcf, hse, hsc, htr, hns]
        · cases hp : parse_s3_uri uri with
          | error e =>
            simp [is_cache_valid, load_cache_metadata, hcf, hse, hsc, htr, hp]
          | ok bk =>
            cases hh : env.headAttempt 0 with
            | error e =>
              simp [is_cache_valid, load_cache_metadata, hcf, hse, hsc, htr, hp, hh]
            | ok raw =>
              simp [is_cache_valid, load_cache_metadata, hcf, hse, hsc, htr, hp, hh]
              exact etagMatches_iff md _

/-- A fully consistent cache situation: file and sidecar present, sidecar
stores tag `abc`, remote HEAD returns `"abc"` (quoted, as S3 does). -/
def exCacheEnv : CacheEnv :=
  { cachedFileExists := true, sidecarExists := true,
    sidecarContent := some (.obj [("etag", .str "abc"), ("content_length", .num 10)]),
    headAttempt := fun _ => .ok "\"abc\"" }

theorem uri_is_cache_valid_iff_example :
    is_cache_valid "s3://bucket/key.json" exCacheEnv = true := by
  exact (uri_is_cache_valid_iff "s3://bucket/key.json" exCacheEnv).mpr
    ⟨rfl, rfl, ⟨.obj [("etag", .str "abc"), ("content_length", .num 10)], rfl,
      ⟨("bucket", "key.json"), rfl⟩, ⟨"\"abc\"", rfl, rfl⟩⟩⟩

/-! ## `_retry_with_backoff` and its call sites -/

/-- The retry loop of `_retry_with_backoff`: `attempt` is the 0-based loop
index, the second argument is the number of attempts remaining, `f n` is the
outcome of invoking `func` for the `n`-th time, and the returned list holds
the delays slept (`base_delay * 2 ** attempt`, slept only when another
attempt remains).  With no attempt remaining the loop body never ran and
Python raises the non-exception `None` (`none` here); the wrapper is only
ever called with the default `max_retries = 3`. -/
def retryGo {α : Type} (f : Nat → Except String α) (base : ℚ) :
    Nat → Nat → Option (Except String α × List ℚ)
  | _, 0 => none
  | attempt, 1 => some (f attempt, [])
  | attempt, r+2 =>
    match f attempt with
    | .ok a => some (.ok a, [])
    | .error _ =>
      match retryGo f base (attempt+1) (r+1) with
      | some (res, ds) => some (res, base * 2 ^ attempt :: ds)
      | none => none

/-- `_retry_with_backoff(func, max_retries, base_delay)`. -/
def retry_with_backoff {α : Type} (f : Nat → Except String α) (maxRetries : Nat)
    (base : ℚ) : Option (Except String α × List ℚ) :=
  retryGo f base 0 maxRetries

theorem retryGo_eq_one {α : Type} (f : Nat → Except String α) (base : ℚ) (attempt : Nat) :
    retryGo f base attempt 1 = some (f attempt, []) := rfl

theorem retryGo_eq_succ {α : Type} (f : Nat → Except String α) (base : ℚ)
    (attempt r : Nat) :
    retryGo f base attempt (r+2) =
      match f attempt with
      | .ok a => some (.ok a, [])
      | .error _ =>
        match retryGo f base (attempt+1) (r+1) with
        | some (res, ds) => some (res, base * 2 ^ attempt :: ds)
        | none => none := rfl

/-- Full characterisation of the wrapper at its only used attempt count,
3: first success wins with no sleep; otherwise the delay doubles between
consecutive attempts and the last attempt's outcome (in particular its
error) is what comes out. -/
theorem retry3_cases {α : Type} (f : Nat → Except String α) (base : ℚ) :
    retry_with_backoff f 3 base =
      match f 0 with
      | .ok a => some (.ok a, [])
      | .error _ =>
        match f 1 with
        | .ok a => some (.ok a, [base])
        | .error _ => some (f 2, [base, base * 2]) := by
  show retryGo f base 0 3 = _
  rw [retryGo_eq_succ f base 0 1]
  cases h0 : f 0 with
  | ok a => rfl
  | error e0 =>
    rw [retryGo_eq_succ f base (0+1) 0]
    cases h1 : f (0+1) with
    | ok a =>
      norm_num
    | error e1 =>
      rw [retryGo_eq_one f base (0+1+1)]
      cases h2 : f (0+1+1) with
      | ok a => norm_num
      | error e2 => norm_num

/-- The per-attempt outcomes of the three S3 operations that the module
routes through `_retry_with_backoff`: `get_object`+parse for the dataset
document, `get_object` for an image (raw bytes), `put_object` for the
upload (response metadata). -/
structure S3Env where
  jsonAttempt : Nat → Except String (JValue × JValue)
  imageAttempt : Nat → Except String (List Nat)
  uploadAttempt : Nat → Except String JValue

/-- `_download_json_from_s3(uri)`: `do_download` through the wrapper. -/
def download_json_from_s3 (env : S3Env) :
    Option (Except String (JValue × JValue) × List ℚ) :=
  retry_with_backoff env.jsonAttempt 3 1

/-- The network fetch of `download_s3_image(uri)` on a cache miss:
`do_download` through the wrapper. -/
def download_s3_image_fetch (env : S3Env) :
    Option (Except String (List Nat) × List ℚ) :=
  retry_with_backoff env.imageAttempt 3 1

/-- `upload_json_to_s3(uri, local_path)`: `do_upload` through the wrapper. -/
def upload_json_to_s3 (env : S3Env) : Option (Except String JValue × List ℚ) :=
  retry_with_backoff env.uploadAttempt 3 1

/-- Modelled from the spec ("Retry with backoff: every remote network call
(download/upload/freshness-check) is wrapped in a bounded retry"): the
freshness check as the spec describes it, identical to `is_cache_valid`
except that the HEAD request goes through the bounded retry wrapper. -/
def is_cache_valid_spec_retry (uri : String) (env : CacheEnv) : Bool :=
  if !env.cachedFileExists then false
  else
    match load_cache_metadata env with
    | none => false
    | some md =>
      if !pyTruthy md then false
      else
        match parse_s3_uri uri with
        | .error _ => false
        | .ok _ =>
          match retry_with_backoff env.headAttempt 3 1 with
          | some (.ok raw, _) => etagMatches md (pyStripQuotes raw)
          | _ => false

/-- A cache situation whose HEAD check fails transiently on the first
attempt and succeeds (with the matching tag) on the second. -/
def exRetryEnv : CacheEnv :=
  { cachedFileExists := true, sidecarExists := true,
    sidecarContent := some (.obj [("etag", .str "abc")]),
    headAttempt := fun n => if n = 0 then .error "connection reset" else .ok "\"abc\"" }

/-- C7 counterexample: the freshness HEAD check is a single direct attempt,
not a call through the retry wrapper — under a transient first-attempt
failure the source's `is_cache_valid` reports the cache invalid, while the
spec's retried variant would report it valid. -/
theorem uri_head_no_retry_counterexample :
    is_cache_valid "s3://bucket/key.json" exRetryEnv = false ∧
    is_cache_valid_spec_retry "s3://bucket/key.json" exRetryEnv = true :=
  ⟨rfl, rfl⟩

/-- C7 (amended): the dataset-document download, the image download and the
upload each run through the bounded retry wrapper — a first-attempt success
returns immediately with no delay, and when all 3 attempts fail the final
attempt's error is raised after delays 1·2⁰ and 1·2¹ (doubling) — while the
freshness HEAD check is a single direct attempt: `is_cache_valid` depends
only on attempt 0 of the HEAD outcome. -/
theorem uri_retry_call_sites (env : S3Env) (cenv : CacheEnv) (uri : String)
    (f : Nat → Except String String) :
    (∀ d, env.jsonAttempt 0 = .ok d → download_json_from_s3 env = some (.ok d, [])) ∧
    (∀ e0 e1 e2, env.jsonAttempt 0 = .error e0 → env.jsonAttempt 1 = .error e1 →
      env.jsonAttempt 2 = .error e2 →
      download_json_from_s3 env = some (.error e2, [1, 2])) ∧
    (∀ d, env.imageAttempt 0 = .ok d → download_s3_image_fetch env = some (.ok d, [])) ∧
    (∀ e0 e1 e2, env.imageAttempt 0 = .error e0 → env.imageAttempt 1 = .error e1 →
      env.imageAttempt 2 = .error e2 →
      download_s3_image_fetch env = some (.error e2, [1, 2])) ∧
    (∀ d, env.uploadAttempt 0 = .ok d → upload_json_to_s3 env = some (.ok d, [])) ∧
    (∀ e0 e1 e2, env.uploadAttempt 0 = .error e0 → env.uploadAttempt 1 = .error e1 →
      env.uploadAttempt 2 = .error e2 →
      upload_json_to_s3 env = some (.error e2, [1, 2])) ∧
    (f 0 = cenv.headAttempt 0 →
      is_cache_valid uri { cenv with headAttempt := f } = is_cache_valid uri cenv) := by
  refine ⟨?_, ?_, ?_, ?_, ?_, ?_, ?_⟩
  · intro d h
    unfold download_json_from_s3
    rw [retry3_cases, h]
  · intro e0 e1 e2 h0 h1 h2
    unfold download_json_from_s3
    rw [retry3_cases, h0, h1, h2]
    norm_num
  · intro d h
    unfold download_s3_image_fetch
    rw [retry3_cases, h]
  · intro e0 e1 e2 h0 h1 h2
    unfold download_s3_image_fetch
    rw [retry3_cases, h0, h1, h2]
    norm_num
  · intro d h
    unfold upload_json_to_s3
    rw [retry3_cases, h]
  · intro e0 e1 e2 h0 h1 h2
    unfold upload_json_to_s3
    rw [retry3_cases, h0, h1, h2]
    norm_num
  · intro hf
    simp only [is_cache_valid, load_cache_metadata]
    rw [hf]

/-- Attempt outcomes exercising the wrapped call sites. -/
def exS3Env : S3Env :=
  { jsonAttempt := fun _ => .error "boom",
    imageAttempt := fun n => if n = 0 then .error "boom" else .ok [1],
    uploadAttempt := fun _ => .ok .null }

theorem uri_retry_call_sites_example :
    download_json_from_s3 exS3Env = some (.error "boom", [1, 2]) ∧
    upload_json_to_s3 exS3Env = some (.ok .null, []) ∧
    is_cache_valid "s3://bucket/key.json"
        { exRetryEnv with
          headAttempt := fun n => if n = 0 then .error "connection reset" else .error "other" }
      = is_cache_valid "s3://bucket/key.json" exRetryEnv := by
  refine ⟨?_, ?_, ?_⟩
  · exact (uri_retry_call_sites exS3Env exCacheEnv "s3://bucket/key.json"
      (fun _ => .ok "x")).2.1 "boom" "boom" "boom" rfl rfl rfl
  · exact (uri_retry_call_sites exS3Env exCacheEnv "s3://bucket/key.json"
      (fun _ => .ok "x")).2.2.2.2.1 .null rfl
  · exact (uri_retry_call_sites exS3Env exRetryEnv "s3://bucket/key.json"
      (fun n => if n = 0 then .error "connection reset" else .error "other")).2.2.2.2.2.2 rfl

/-! ## C8: object identity of the manager's read results

The `get_*` accessors return `list(...)` / `dict(...)` — *shallow* copies.
Whether anything is shared between the returned value and the store is a
fact about object identity, so this section models the relevant Python
objects with an explicit heap: addresses mapping to values, where lists and
dicts hold the *addresses* of their elements. -/

/-- A Python object address. -/
abbrev Addr := Nat

/-- A Python runtime value as stored on the heap: containers hold element
addresses, not element values. -/
inductive PyVal where
  | pnone
  | pbool (b : Bool)
  | pint (n : Int)
  | pstr (s : String)
  | plist (elems : List Addr)
  | pdict (entries : List (String × Addr))
deriving DecidableEq

/-- The heap: a finite map from addresses to values. -/
abbrev Heap := List (Addr × PyVal)

/-- Read an object. -/
def hGet (h : Heap) (a : Addr) : Option PyVal := alGet h a

/-- Write (or allocate) an object. -/
def hSet (h : Heap) (a : Addr) (v : PyVal) : Heap := alSet h a v

/-- An address not used by any object of the heap. -/
def freshAddr (h : Heap) : Addr := h.foldr (fun p m => max (p.1 + 1) m) 0

theorem freshAddr_gt (h : Heap) : ∀ p ∈ h, p.1 < freshAddr h := by
  induction h with
  | nil =>
    intro p hp
    simp at hp
  | cons q t ih =>
    intro p hp
    simp only [freshAddr, List.foldr_cons]
    rcases List.mem_cons.mp hp with rfl | hp2
    · exact lt_of_lt_of_le (Nat.lt_succ_self _) (le_max_left _ _)
    · exact lt_of_lt_of_le (ih p hp2) (le_max_right _ _)

theorem alGet_eq_none {κ β : Type} [DecidableEq κ] (l : List (κ × β)) (k : κ)
    (hk : ∀ p ∈ l, p.1 ≠ k) : alGet l k = none := by
  induction l with
  | nil => rfl
  | cons q t ih =>
    obtain ⟨k', v⟩ := q
    have h1 : k' ≠ k := hk (k', v) (List.mem_cons_self _ _)
    simp only [alGet, if_neg h1]
    exact ih (fun p hp => hk p (List.mem_cons_of_mem _ hp))

theorem hGet_freshAddr (h : Heap) : hGet h (freshAddr h) = none :=
  alGet_eq_none h (freshAddr h) (fun p hp => Nat.ne_of_lt (freshAddr_gt h p hp))

/-- `self.data.get(k, [])` resolved on the heap: the element addresses of
the collection named `k` of the document dict at `root` (`some []` for an
absent key; `none` where Python raises: missing document dict or a non-list
value under the key). -/
def heapListCollection (h : Heap) (root : Addr) (k : String) : Option (List Addr) :=
  match hGet h root with
  | some (.pdict es) =>
    match alGet es k with
    | some ca =>
      match hGet h ca with
      | some (.plist xs) => some xs
      | _ => none
    | none => some []
  | _ => none

/-- `list(self.data.get(k, []))`: allocate a new list object holding the
same element addresses. -/
def heapGetListCopy (h : Heap) (root : Addr) (k : String) : Option (Addr × Heap) :=
  match heapListCollection h root k with
  | some xs => some (freshAddr h, hSet h (freshAddr h) (.plist xs))
  | none => none

/-- `DatasetManager.get_images()` on the heap. -/
def heap_get_images (h : Heap) (root : Addr) : Option (Addr × Heap) :=
  heapGetListCopy h root "images"

/-- `DatasetManager.get_annotations()` on the heap. -/
def heap_get_annotations (h : Heap) (root : Addr) : Option (Addr × Heap) :=
  heapGetListCopy h root "annotations"

/-- `DatasetManager.get_categories()` on the heap. -/
def heap_get_categories (h : Heap) (root : Addr) : Option (Addr × Heap) :=
  heapGetListCopy h root "categories"

/-- `DatasetManager.get_licenses()` on the heap. -/
def heap_get_licenses (h : Heap) (root : Addr) : Option (Addr × Heap) :=
  heapGetListCopy h root "licenses"

/-- `DatasetManager.get_info()` on the heap: `dict(self.data.get("info", {}))`
allocates a new dict holding the same `(key, value-address)` pairs. -/
def heap_get_info (h : Heap) (root : Addr) : Option (Addr × Heap) :=
  match hGet h root with
  | some (.pdict es) =>
    match alGet es "info" with
    | some ia =>
      match hGet h ia with
      | some (.pdict f) => some (freshAddr h, hSet h (freshAddr h) (.pdict f))
      | _ => none
    | none => some (freshAddr h, hSet h (freshAddr h) (.pdict []))
  | _ => none

/-- `img.get("id") == image_id` for the image object at address `ia`. -/
def heapElemIdIs (h : Heap) (ia : Addr) (imgId : Int) : Bool :=
  match hGet h ia with
  | some (.pdict f) =>
    match alGet f "id" with
    | some va =>
      match hGet h va with
      | some (.pint n) => n = imgId
      | _ => false
    | none => false
  | _ => false

/-- `DatasetManager.get_image_by_id(image_id)` on the heap: scan the images,
return `dict(img)` — a fresh dict sharing the matching image's value
addresses — or `None`. -/
def heap_get_image_by_id (h : Heap) (root : Addr) (imgId : Int) :
    Option (Option Addr × Heap) :=
  match heapListCollection h root "images" with
  | some xs =>
    match xs.find? (fun ia => heapElemIdIs h ia imgId) with
    | some ia =>
      match hGet h ia with
      | some (.pdict f) => some (some (freshAddr h), hSet h (freshAddr h) (.pdict f))
      | _ => none
    | none => some (none, h)
  | none => none

/-- `d[k] = v` for the dict object at address `da`: allocate the value,
then rebind the key to the new value address (no-op at a non-dict address,
where Python raises). -/
def heapDictSetItem (h : Heap) (da : Addr) (k : String) (v : PyVal) : Heap :=
  let va := freshAddr h
  let h1 := hSet h va v
  match hGet h1 da with
  | some (.pdict es) => hSet h1 da (.pdict (alSet es k va))
  | _ => h1

/-- The store's view of its images' `"id"` values, read through the
document root. -/
def imageIdVals (h : Heap) (root : Addr) : List (Option PyVal) :=
  match heapListCollection h root "images" with
  | some xs =>
    xs.map (fun ia =>
      match hGet h ia with
      | some (.pdict f) =>
        match alGet f "id" with
        | some va => hGet h va
        | none => none
      | _ => none)
  | none => []

theorem heapGetListCopy_spec (h : Heap) (root : Addr) (k : String) (p : Addr × Heap)
    (hp : heapGetListCopy h root k = some p) :
    hGet h p.1 = none ∧
    hGet p.2 p.1 = some (.plist ((heapListCollection h root k).getD [])) ∧
    ∀ b, b ≠ p.1 → hGet p.2 b = hGet h b := by
  cases hc : heapListCollection h root k with
  | none =>
    rw [heapGetListCopy, hc] at hp
    exact Option.noConfusion hp
  | some xs =>
    rw [heapGetListCopy, hc] at hp
    obtain rfl := Option.some.inj hp
    refine ⟨hGet_freshAddr h, ?_, ?_⟩
    · simp [hGet, hSet, alGet_alSet_self, hc]
    · intro b hb
      exact alGet_alSet_ne h (freshAddr h) b _ (Ne.symm hb)

/-- C8 counterexample heap: a loaded document dict at address 0 whose
`"images"` list at address 1 holds one image dict at address 2 with
`"id"` at address 3 holding `1`. -/
def exHeap : Heap :=
  [(0, .pdict [("images", 1)]), (1, .plist [2]), (2, .pdict [("id", 3)]), (3, .pint 1)]

/-- The heap after `get_images` on `exHeap`: the same objects plus the
returned list at the fresh address 4, holding the same element address 2. -/
def exHeapCopy : Heap := exHeap ++ [(4, .plist [2])]

/-- C8 counterexample: `get_images` allocates a new list object (address 4)
whose sole element is address 2 — the very image dict that the store's own
images list holds — so an internal object of the store is reachable from
the returned value, and an in-place mutation through the returned value
(`returned[0]["id"] = 99`) changes the store's in-memory document. -/
theorem dm_getter_aliasing_counterexample :
    heap_get_images exHeap 0 = some (4, exHeapCopy) ∧
    hGet exHeapCopy 4 = some (.plist [2]) ∧
    heapListCollection exHeapCopy 0 "images" = some [2] ∧
    imageIdVals exHeapCopy 0 = [some (.pint 1)] ∧
    imageIdVals (heapDictSetItem exHeapCopy 2 "id" (.pint 99)) 0
      = [some (.pint 99)] := by
  refine ⟨rfl, rfl, rfl, rfl, rfl⟩

/-- C8 (amended): every `get_*` read returns a *fresh top-level container* —
a newly allocated list/dict, not itself an internal object of the store,
with the rest of the heap untouched — but the container's entries are the
store's internal element addresses (shared references), so mutating a
returned element in place mutates the store's document. -/
theorem dm_getters_shallow_copy (h : Heap) (root : Addr) (imgId : Int) :
    (∀ p, heap_get_images h root = some p →
      hGet h p.1 = none ∧
      hGet p.2 p.1 = some (.plist ((heapListCollection h root "images").getD [])) ∧
      ∀ b, b ≠ p.1 → hGet p.2 b = hGet h b) ∧
    (∀ p, heap_get_annotations h root = some p →
      hGet h p.1 = none ∧
      hGet p.2 p.1 = some (.plist ((heapListCollection h root "annotations").getD [])) ∧
      ∀ b, b ≠ p.1 → hGet p.2 b = hGet h b) ∧
    (∀ p, heap_get_categories h root = some p →
      hGet h p.1 = none ∧
      hGet p.2 p.1 = some (.plist ((heapListCollection h root "categories").getD [])) ∧
      ∀ b, b ≠ p.1 → hGet p.2 b = hGet h b) ∧
    (∀ p, heap_get_licenses h root = some p →
      hGet h p.1 = none ∧
      hGet p.2 p.1 = some (.plist ((heapListCollection h root "licenses").getD [])) ∧
      ∀ b, b ≠ p.1 → hGet p.2 b = hGet h b) ∧
    (∀ p, heap_get_info h root = some p →
      hGet h p.1 = none ∧
      (∀ es ia f, hGet h root = some (.pdict es) → alGet es "info" = some ia →
        hGet h ia = some (.pdict f) → hGet p.2 p.1 = some (.pdict f)) ∧
      ∀ b, b ≠ p.1 → hGet p.2 b = hGet h b) ∧
    (∀ q, heap_get_image_by_id h root imgId = some q →
      (q.1 = none → q.2 = h) ∧
      ∀ a, q.1 = some a →
        hGet h a = none ∧
        (∃ ia f, hGet h ia = some (.pdict f) ∧ hGet q.2 a = some (.pdict f)) ∧
        ∀ b, b ≠ a → hGet q.2 b = hGet h b) := by
  refine ⟨fun p hp => heapGetListCopy_spec h root "images" p hp,
          fun p hp => heapGetListCopy_spec h root "annotations" p hp,
          fun p hp => heapGetListCopy_spec h root "categories" p hp,
          fun p hp => heapGetListCopy_spec h root "licenses" p hp,
          ?_, ?_⟩
  · intro p hp
    cases hroot : hGet h root with
    | none => simp [heap_get_info, hroot] at hp
    | some v =>
      cases v with
      | pdict es =>
        cases hi : alGet es "info" with
        | none =>
          simp only [heap_get_info, hroot, hi] at hp
          obtain rfl := Option.some.inj hp
          refine ⟨hGet_freshAddr h, ?_, ?_⟩
          · intro es2 ia f hr2 hi2 hv2
            simp only [Option.some.injEq, PyVal.pdict.injEq] at hr2
            subst hr2
            rw [hi] at hi2
            exact Option.noConfusion hi2
          · intro b hb
            exact alGet_alSet_ne h (freshAddr h) b _ (Ne.symm hb)
        | some ia =>
          cases hv : hGet h ia with
          | none => simp [heap_get_info, hroot, hi, hv] at hp
          | some w =>
            cases w with
            | pdict f =>
              simp only [heap_get_info, hroot, hi, hv] at hp
              obtain rfl := Option.some.inj hp
              refine ⟨hGet_freshAddr h, ?_, ?_⟩
              · intro es2 ia2 f2 hr2 hi2 hv2
                simp only [Option.some.injEq, PyVal.pdict.injEq] at hr2
                subst hr2
                rw [hi] at hi2
                obtain rfl : ia = ia2 := Option.some.inj hi2
                rw [hv] at hv2
                simp only [Option.some.injEq, PyVal.pdict.injEq] at hv2
                subst hv2
                simp [hGet, hSet, alGet_alSet_self]
              · intro b hb
                exact alGet_alSet_ne h (freshAddr h) b _ (Ne.symm hb)
            | pnone => simp [heap_get_info, hroot, hi, hv] at hp
            | pbool b => simp [heap_get_info, hroot, hi, hv] at hp
            | pint n => simp [heap_get_info, hroot, hi, hv] at hp
            | pstr s => simp [heap_get_info, hroot, hi, hv] at hp
            | plist xs => simp [heap_get_info, hroot, hi, hv] at hp
      | pnone => simp [heap_get_info, hroot] at hp
      | pbool b => simp [heap_get_info, hroot] at hp
      | pint n => simp [heap_get_info, hroot] at hp
      | pstr s => simp [heap_get_info, hroot] at hp
      | plist xs => simp [heap_get_info, hroot] at hp
  · intro q hq
    cases hc : heapListCollection h root "images" with
    | none => simp [heap_get_image_by_id, hc] at hq
    | some xs =>
      cases hf : xs.find? (fun ia => heapElemIdIs h ia imgId) with
      | none =>
        simp only [heap_get_image_by_id, hc, hf] at hq
        obtain rfl := Option.some.inj hq
        exact ⟨fun _ => rfl, fun a ha => Option.noConfusion ha⟩
      | some ia =>
        cases hv : hGet h ia with
        | none => simp [heap_get_image_by_id, hc, hf, hv] at hq
        | some w =>
          cases w with
          | pdict f =>
            simp only [heap_get_image_by_id, hc, hf, hv] at hq
            obtain rfl := Option.some.inj hq
            constructor
            · intro hnone
              exact Option.noConfusion hnone
            · intro a ha
              obtain rfl : freshAddr h = a := Option.some.inj ha
              refine ⟨hGet_freshAddr h, ⟨ia, f, hv, ?_⟩, ?_⟩
              · simp [hGet, hSet, alGet_alSet_self]
              · intro b hb
                exact alGet_alSet_ne h (freshAddr h) b _ (Ne.symm hb)
          | pnone => simp [heap_get_image_by_id, hc, hf, hv] at hq
          | pbool b => simp [heap_get_image_by_id, hc, hf, hv] at hq
          | pint n => simp [heap_get_image_by_id, hc, hf, hv] at hq
          | pstr s => simp [heap_get_image_by_id, hc, hf, hv] at hq
          | plist xs2 => simp [heap_get_image_by_id, hc, hf, hv] at hq

theorem dm_getters_shallow_copy_example :
    heap_get_images exHeap 0 = some (4, exHeapCopy) ∧
    hGet exHeap 4 = none ∧
    hGet exHeapCopy 4 = some (.plist [2]) := by
  have h := (dm_getters_shallow_copy exHeap 0 1).1 ((4, exHeapCopy) : Addr × Heap) rfl
  exact ⟨rfl, h.1, h.2.1.trans rfl⟩

/-! ## ImageCache (`app/cache.py`) -/

/-- The window cache: ordered image list, index→image map, image_id→
annotation-list map, and the set of resident indices. -/
structure ImageCache where
  images : List JValue
  image_map : List (Int × JValue)
  annotations_by_image : List (Int × List JValue)
  cached_indices : Finset Int

namespace ImageCache

/-- `ImageCache.update`: wholesale replacement of all four fields. -/
def update (c : ImageCache) (new_images : List JValue) (new_map : List (Int × JValue))
    (new_annot : List (Int × List JValue)) (new_indices : Finset Int) : ImageCache :=
  { images := new_images, image_map := new_map,
    annotations_by_image := new_annot, cached_indices := new_indices }

/-- `ImageCache.add_annotation(image_id, annotation)`: create the image's
annotation list if absent, then append. -/
def addAnnotationOp (c : ImageCache) (imageId : Int) (ann : JValue) : ImageCache :=
  { c with annotations_by_image := alSet c.annotations_by_image imageId ((alGetD c.annotations_by_image imageId []) ++ [ann]) }

/-- Replace the first annotation whose `"id"` is `annId` in one list. -/
def replaceFirstAnn (annId : Int) (updated : JValue) : List JValue → Option (List JValue)
  | [] => none
  | a :: rest =>
    if intFieldIs a "id" annId then some (updated :: rest)
    else
      match replaceFirstAnn annId updated rest with
      | some rest2 => some (a :: rest2)
      | none => none

/-- The dict-iteration of `update_annotation`: patch the first entry whose
list contains a match and return early. -/
def updEntries (annId : Int) (updated : JValue) :
    List (Int × List JValue) → List (Int × List JValue)
  | [] => []
  | (k, anns) :: t =>
    match replaceFirstAnn annId updated anns with
    | some anns2 => (k, anns2) :: t
    | none => (k, anns) :: updEntries annId updated t

/-- `ImageCache.update_annotation(annotation_id, updated_annotation)`. -/
def updateAnnotationOp (c : ImageCache) (annId : Int) (updated : JValue) : ImageCache :=
  { c with annotations_by_image := updEntries annId updated c.annotations_by_image }

/-- `ImageCache.delete_annotation(annotation_id)`: filter every image's
annotation list. -/
def deleteAnnotationOp (c : ImageCache) (annId : Int) : ImageCache :=
  { c with annotations_by_image := c.annotations_by_image.map (fun p => (p.1, p.2.filter (fun a => !intFieldIs a "id" annId))) }

/-- `ImageCache.delete_image(image_id)`: filter the images list and drop
the image's annotation group, touching nothing else. -/
def delete_image (c : ImageCache) (imageId : Int) : ImageCache :=
  { c with images := c.images.filter (fun img => !intFieldIs img "id" imageId),
           annotations_by_image := alRemove c.annotations_by_image imageId }

/-- `ImageCache.get_image_by_id(image_id)`: linear scan. -/
def get_image_by_id (c : ImageCache) (imageId : Int) : Option JValue :=
  c.images.find? (fun img => intFieldIs img "id" imageId)

/-- `ImageCache.clear()`. -/
def clear (c : ImageCache) : ImageCache :=
  { images := [], image_map := [], annotations_by_image := [], cached_indices := ∅ }

/-- The spec's CacheWindow invariant: the resident-index set equals the key
set of the index→image map. -/
def inv (c : ImageCache) : Prop :=
  c.cached_indices = (c.image_map.map (fun p => p.1)).toFinset

end ImageCache

/-- The empty window cache satisfies the consistency invariant. -/
theorem empty_cache_inv : ImageCache.inv (ImageCache.mk [] [] [] ∅) := by
  show (∅ : Finset Int) = (([] : List (Int × JValue)).map (fun p => p.1)).toFinset
  decide

/-- C9 counterexample: the empty cache satisfies the invariant, but
`update` installs its arguments verbatim, so calling it with an empty
index→image map and resident-index set `{0}` — a cache operation by the
claim's own enumeration — breaks the invariant. -/
theorem cache_update_invariant_counterexample :
    ImageCache.inv (ImageCache.mk [] [] [] ∅) ∧
    ¬ ImageCache.inv (ImageCache.update (ImageCache.mk [] [] [] ∅) [] [] [] {0}) := by
  constructor
  · exact empty_cache_inv
  · intro hbad
    have h2 : ({0} : Finset Int)
        = (([] : List (Int × JValue)).map (fun p => p.1)).toFinset := hbad
    exact absurd h2 (by decide)

/-- C9 (amended): `add_annotation`, `update_annotation`,
`delete_annotation`, `delete_image` and `clear` preserve the invariant
"resident indices = key set of the index→image map"; `update` preserves it
exactly under the extra premise that the supplied resident-index set equals
the key set of the supplied map. -/
theorem cache_invariant_preservation (c : ImageCache) (imageId annId : Int)
    (ann updated : JValue) (ni : List JValue) (nm : List (Int × JValue))
    (na : List (Int × List JValue)) (nidx : Finset Int) (hc : ImageCache.inv c) :
    ImageCache.inv (c.addAnnotationOp imageId ann) ∧
    ImageCache.inv (c.updateAnnotationOp annId updated) ∧
    ImageCache.inv (c.deleteAnnotationOp annId) ∧
    ImageCache.inv (c.delete_image imageId) ∧
    ImageCache.inv c.clear ∧
    ((nm.map (fun p => p.1)).toFinset = nidx → ImageCache.inv (c.update ni nm na nidx)) := by
  refine ⟨hc, hc, hc, hc, ?_, fun hn => hn.symm⟩
  show (∅ : Finset Int) = (([] : List (Int × JValue)).map (fun p => p.1)).toFinset
  decide

theorem cache_invariant_preservation_example :
    ImageCache.inv ((ImageCache.mk [] [] [] ∅).delete_image 1) ∧
    ImageCache.inv ((ImageCache.mk [] [] [] ∅).update [] [(0, .obj [("id", .num 1)])] [] {0}) := by
  have h := cache_invariant_preservation (ImageCache.mk [] [] [] ∅) 1 1 .null .null
    [] [(0, .obj [("id", .num 1)])] [] {0} empty_cache_inv
  exact ⟨h.2.2.2.1, h.2.2.2.2.2 (by decide)⟩

/-- C10: `delete_image` modifies only the images list and the
annotations-by-image map; `image_map` and `cached_indices` are left
unchanged, so an index entry for the deleted image that was in `image_map`
before the call is still there after it. -/
theorem cache_delete_image_frame (c : ImageCache) (imageId : Int) :
    (c.delete_image imageId).image_map = c.image_map ∧
    (c.delete_image imageId).cached_indices = c.cached_indices ∧
    (c.delete_image imageId).images
      = c.images.filter (fun img => !intFieldIs img "id" imageId) ∧
    (c.delete_image imageId).annotations_by_image
      = alRemove c.annotations_by_image imageId ∧
    ∀ idx img, (idx, img) ∈ c.image_map → (idx, img) ∈ (c.delete_image imageId).image_map :=
  ⟨rfl, rfl, rfl, rfl, fun _ _ h => h⟩

theorem cache_delete_image_frame_example :
    ((ImageCache.mk [.obj [("id", .num 1)]] [(0, .obj [("id", .num 1)])] [] {0}).delete_image 1).images = [] ∧
    (0, JValue.obj [("id", .num 1)])
      ∈ ((ImageCache.mk [.obj [("id", .num 1)]] [(0, .obj [("id", .num 1)])] [] {0}).delete_image 1).image_map := by
  have h := cache_delete_image_frame
    (ImageCache.mk [.obj [("id", .num 1)]] [(0, .obj [("id", .num 1)])] [] {0}) 1
  exact ⟨h.2.2.1.trans rfl,
    h.2.2.2.2 0 (.obj [("id", .num 1)]) (List.mem_singleton.mpr rfl)⟩
